import Mathlib

/-!
Verification development for the LLHD assembly reader (`src/assembly/reader.rs`).

The reader is a `combine`-based recursive-descent parser that turns IR assembly
text into a module.  This file shallowly embeds the parts of the reader the
claims are about:

* the type grammar (`ty_parser`),
* the inline-value grammar (`inline_value` and its helpers: integer constants,
  time constants with SI prefixes, array and struct aggregates),
* the scoped symbol table (`NameTable`: `insert`, `lookup`, `use_block`,
  `declare_block`) with block forward references,
* argument-list parsing of `call`/`inst` with the positional formal-type
  iterator,
* the body assembly of `parse_body`/`blocks`/`insts` at the level of their
  symbol-table effects,
* `untemp_name` and the argument/instruction/block naming logic.

Error channels: `combine` parse errors surface as the diagnostic string
returned by `parse_str`; Rust `panic!`/`expect`/`unwrap` aborts the process
and can NOT be returned by `parse_str`.  The embedding keeps the two channels
apart: `POut.fail` is a parse error (diagnostic channel), `POut.panicked msg`
is a process abort.  Stateful symbol-table operations use `Except String`
where `.error msg` is likewise a panic (the source `NameTable` only ever
panics; it has no diagnostic-channel errors).

Machine integers: the reader converts decimal literals with
`str::parse::<usize>()` followed by `unwrap()`/`expect(..)`; `usize` is
modelled as 64 bits wide, so conversion fails (and the site panics) exactly
when the value is `≥ 2^64`.  Arbitrary-precision `BigInt`/`BigRational`
values are modelled by `Int`/`ℚ`.
-/

/-- The closed type algebra of the IR (`crate::ty`), as produced by the
reader's type grammar. -/
inductive Ty where
  | void : Ty
  | time : Ty
  | int (width : Nat) : Ty
  | enum (card : Nat) : Ty
  | pointer (inner : Ty) : Ty
  | signal (inner : Ty) : Ty
  | array (len : Nat) (elem : Ty) : Ty
  | strukt (fields : List Ty) : Ty
  | func (args : List Ty) (ret : Ty) : Ty
  | entity (ins : List Ty) (outs : List Ty) : Ty

/-- A value reference (`ValueRef`) paired with constant payloads.  Constants
and aggregates are inlined (`konst::const_int`, `konst::const_time`,
`Aggregate`); references to instructions, arguments, blocks and top-level
units are tagged handles whose identity is a serial number (the source uses
heap addresses for identity; the embedding threads a fresh-id counter). -/
inductive ValueRef where
  | konstInt (width : Nat) (value : Int) : ValueRef
  | konstTime (value : ℚ) (delta : Nat) (epsilon : Nat) : ValueRef
  | arrayAgg (ty : Ty) (elems : List ValueRef) : ValueRef
  | structAgg (ty : Ty) (fields : List ValueRef) : ValueRef
  | block (id : Nat) : ValueRef
  | instRef (id : Nat) : ValueRef
  | argument (id : Nat) : ValueRef
  | unitRef (id : Nat) : ValueRef

/-- Whether a `ValueRef` is a block reference (used by `use_block`'s match). -/
def ValueRef.isBlock : ValueRef → Bool
  | .block _ => true
  | _ => false

/-- `NameKey(is_global, text)`: key of the symbol table's values map. -/
structure NameKey where
  g : Bool
  n : String
deriving DecidableEq, Repr

/-- A basic block: identity plus the optional human-facing name
(`Block::new(untemp_name(..))`). -/
structure Block where
  id : Nat
  name : Option String

/-- Make a name `None` if it consists only of digits (`untemp_name`,
reader.rs lines 1143-1148; `is_digit(10)` is the ASCII digit test). -/
def untempName (s : String) : Option String :=
  match s.data.all Char.isDigit with
  | true => none
  | false => some s

/-! ### Association-list maps

The source uses `HashMap`s; only `get`, duplicate-checking `insert` and
`remove` are used, which an association list models observationally. -/

/-- Map lookup. -/
def alLookup [DecidableEq α] : List (α × β) → α → Option β
  | [], _ => none
  | (k, v) :: t, k' => if k' = k then some v else alLookup t k'

/-- Remove a key from the map. -/
def alRemove [DecidableEq α] : List (α × β) → α → List (α × β)
  | [], _ => []
  | (k, v) :: t, k' => if k = k' then alRemove t k' else (k, v) :: alRemove t k'

/-- Insert (replacing any previous binding of the key). -/
def alInsert [DecidableEq α] (l : List (α × β)) (k : α) (v : β) : List (α × β) :=
  (k, v) :: alRemove l k

/-- One scope of the symbol table: the values map and the forward-declared
blocks map. -/
structure Scope where
  values : List (NameKey × (ValueRef × Ty))
  blocks : List (String × Block)

/-- The scoped name table (`NameTable`): current scope, parent chain, and a
fresh-id counter standing in for heap identity of newly allocated objects. -/
structure NT where
  cur : Scope
  parents : List Scope
  nextId : Nat

/-- The empty root name table. -/
def NT.empty : NT := ⟨⟨[], []⟩, [], 0⟩

/-- `NameTable::insert` (lines 1169-1175): insert into the current scope;
a duplicate key panics "name redefined". -/
def NT.insert (nt : NT) (key : NameKey) (v : ValueRef) (ty : Ty) : Except String NT :=
  if (alLookup nt.cur.values key).isSome then .error "name redefined"
  else .ok { nt with cur := { nt.cur with values := alInsert nt.cur.values key (v, ty) } }

/-- Walk the scope chain looking for a key (`NameTable::lookup`'s recursion
into the parent). -/
def scopesFind : List Scope → NameKey → Option (ValueRef × Ty)
  | [], _ => none
  | s :: ps, k =>
    match alLookup s.values k with
    | some v => some v
    | none => scopesFind ps k

/-- `NameTable::lookup` (lines 1177-1190): absent names panic, naming the
offending `@name` or `%name`. -/
def NT.lookup (nt : NT) (key : NameKey) : Except String (ValueRef × Ty) :=
  match scopesFind (nt.cur :: nt.parents) key with
  | some v => .ok v
  | none =>
    .error ("name " ++ (if key.g then "@" else "%") ++ key.n ++ " has not been declared")

/-- `NameTable::use_block` (lines 1192-1220): produce a block reference by
name; reuse an existing block binding of the current scope, panic if the name
is bound to a non-block, otherwise allocate a placeholder block, record it in
both maps and return its reference. -/
def NT.use_block (nt : NT) (name : String) : Except String (Nat × NT) :=
  match alLookup nt.cur.values ⟨false, name⟩ with
  | some (ValueRef.block r, _) => .ok (r, nt)
  | some _ => .error ("%" ++ name ++ " does not refer to a block")
  | none =>
    let blk : Block := ⟨nt.nextId, untempName name⟩
    if (alLookup nt.cur.blocks name).isSome then .error "block redefined"
    else if (alLookup nt.cur.values ⟨false, name⟩).isSome then .error "block redefined"
    else
      .ok (blk.id,
        { cur := { values := alInsert nt.cur.values ⟨false, name⟩ (ValueRef.block blk.id, Ty.void),
                   blocks := alInsert nt.cur.blocks name blk },
          parents := nt.parents,
          nextId := nt.nextId + 1 })

/-- `NameTable::declare_block` (lines 1222-1242): adopt a previously used
placeholder (removing it from the blocks map), or create a fresh block and
bind its name; a duplicate value binding panics "block redefined". -/
def NT.declare_block (nt : NT) (name : String) : Except String (Block × NT) :=
  match alLookup nt.cur.blocks name with
  | some blk =>
    .ok (blk, { nt with cur := { nt.cur with blocks := alRemove nt.cur.blocks name } })
  | none =>
    let blk : Block := ⟨nt.nextId, untempName name⟩
    if (alLookup nt.cur.values ⟨false, name⟩).isSome then .error "block redefined"
    else
      .ok (blk,
        { cur := { values := alInsert nt.cur.values ⟨false, name⟩ (ValueRef.block blk.id, Ty.void),
                   blocks := nt.cur.blocks },
          parents := nt.parents,
          nextId := nt.nextId + 1 })

/-- The block a `declare_block` call would yield on a name, projected to its
identity (used to state forward-reference resolution). -/
def declaredId (nt : NT) (name : String) : Option Nat :=
  match NT.declare_block nt name with
  | .ok (b, _) => some b.id
  | .error _ => none

/-! ### Character-level parsing

`POut` is the outcome of applying a `combine` parser to the remaining input:
success (value, rest, consumed flag), a parse error (the diagnostic channel;
the consumed flag drives `or`'s no-backtracking rule), or a process abort
(`panic!`/`unwrap`/`expect`), which no combinator can intercept. -/
inductive POut (α : Type) where
  | ok (a : α) (rest : List Char) (consumed : Bool) : POut α
  | fail (consumed : Bool) : POut α
  | panicked (msg : String) : POut α
deriving DecidableEq

/-- `p.or(q)`: run the second alternative only when the first failed without
consuming input; panics propagate. -/
def orElseP (r : POut α) (q : Unit → POut α) : POut α :=
  match r with
  | .fail false => q ()
  | r => r

/-- `r#try(p)`: convert a consumed failure into a non-consumed one so that an
enclosing `or` can backtrack; panics still propagate. -/
def attemptP : POut α → POut α
  | .fail _ => .fail false
  | r => r

/-- Map over the parsed value. -/
def mapP : POut α → (α → β) → POut β
  | .ok a rest c, f => .ok (f a) rest c
  | .fail c, _ => .fail c
  | .panicked m, _ => .panicked m

/-- Mark the outcome as having consumed input (used after an initial token of
an alternative has matched). -/
def setConsumed : POut α → POut α
  | .ok a r _ => .ok a r true
  | .fail _ => .fail true
  | .panicked m => .panicked m

/-- `string(s)`: match the characters of `s`, committing as it consumes. -/
def pstringGo : List Char → List Char → Bool → POut Unit
  | [], rest, c => .ok () rest c
  | _ :: _, [], c => .fail c
  | x :: xs, y :: ys, c => if x = y then pstringGo xs ys true else .fail c

/-- `string(s)` on the input. -/
def pstring (s : List Char) (input : List Char) : POut Unit :=
  pstringGo s input false

/-- Span of leading ASCII digits (`many1(digit())`'s consumed characters). -/
def takeDigits : List Char → List Char × List Char
  | [] => ([], [])
  | c :: cs =>
    if c.isDigit then
      let (d, r) := takeDigits cs
      (c :: d, r)
    else ([], c :: cs)

/-- Numeric value of a decimal digit string (what `BigInt::parse_bytes(s, 10)`
and `str::parse` compute on an all-digit string). -/
def digitsVal (s : List Char) : Nat :=
  s.foldl (fun a c => 10 * a + (c.toNat - 48)) 0

/-- `str::parse::<usize>()` on an already-lexed string: `Some` value for an
all-digit, nonempty string whose value fits in the 64-bit `usize`, `None`
otherwise (the `Err` case, which every call site unwraps). -/
def rustParseUsize (s : List Char) : Option Nat :=
  if s = [] then none
  else if s.all Char.isDigit then
    if digitsVal s < 2 ^ 64 then some (digitsVal s) else none
  else none

/-- Panic message of `unwrap()` on an out-of-range integer literal
(`ParseIntError { kind: PosOverflow }`). -/
def overflowMsg : String := "number too large to fit in target type"

/-- The `int` sub-parser of `ty_parser`:
`many1(digit()).map(|s| s.parse::<usize>().unwrap())`. An out-of-range
literal panics in `unwrap`. -/
def pIntP (input : List Char) : POut Nat :=
  match takeDigits input with
  | ([], _) => .fail false
  | (ds, rest) =>
    match rustParseUsize ds with
    | some n => .ok n rest true
    | none => .panicked overflowMsg

/-- The index parser of `insert_inst`/`extract_inst` (lines 587, 600-602,
630, 643-645): `many1(digit()).map(|s| s.parse().unwrap())`, the same
construction as `ty_parser`'s `int`. -/
def insertIndex (input : List Char) : POut Nat := pIntP input

/-- Skip horizontal whitespace (`whitespace`: any whitespace except `\n`);
the flag records whether anything was consumed. -/
def skipWs : List Char → List Char × Bool
  | [] => ([], false)
  | c :: r =>
    if c.isWhitespace && c != '\n' then ((skipWs r).1, true)
    else (c :: r, false)

mutual

/-- `ty_parser` (lines 100-139): the six base productions in `choice!` order
(`void`, `time`, `i<N>`, `n<N>`, struct, array) followed by an optional
`*`/`$` suffix. -/
def parseTy : Nat → List Char → POut Ty
  | 0, _ => .fail false
  | f + 1, input =>
    let base :=
      orElseP (mapP (pstring ['v', 'o', 'i', 'd'] input) fun _ => Ty.void) fun _ =>
      orElseP (mapP (pstring ['t', 'i', 'm', 'e'] input) fun _ => Ty.time) fun _ =>
      orElseP (match input with
        | 'i' :: r => setConsumed (mapP (pIntP r) Ty.int)
        | _ => .fail false) fun _ =>
      orElseP (match input with
        | 'n' :: r => setConsumed (mapP (pIntP r) Ty.enum)
        | _ => .fail false) fun _ =>
      orElseP (tyStructAlt f input) fun _ =>
      tyArrayAlt f input
    match base with
    | .ok t rest c =>
      match rest with
      | '*' :: r2 => .ok (Ty.pointer t) r2 true
      | '$' :: r2 => .ok (Ty.signal t) r2 true
      | _ => .ok t rest c
    | .fail c => .fail c
    | .panicked m => .panicked m

/-- Struct alternative of `ty_parser`:
`lex(token('{')).with(sep_by(lex(ty_parser), lex(token(',')))).skip(token('}'))`. -/
def tyStructAlt : Nat → List Char → POut Ty
  | 0, _ => .fail false
  | f + 1, input =>
    match input with
    | '{' :: r =>
      let r1 := (skipWs r).1
      setConsumed (match tySepBy f r1 with
        | .ok tys rest _ =>
          (match rest with
           | '}' :: r2 => .ok (Ty.strukt tys) r2 true
           | _ => .fail true)
        | .fail c => .fail c
        | .panicked m => .panicked m)
    | _ => .fail false

/-- `sep_by(lex(ty_parser), lex(token(',')))` for struct members. -/
def tySepBy : Nat → List Char → POut (List Ty)
  | 0, _ => .fail false
  | f + 1, input =>
    match parseTy f input with
    | .fail false => .ok [] input false
    | .fail true => .fail true
    | .panicked m => .panicked m
    | .ok t rest _ => tySepByRest f [t] (skipWs rest).1

/-- The `many(sep.with(p))` tail of `sep_by` for struct members. -/
def tySepByRest : Nat → List Ty → List Char → POut (List Ty)
  | 0, _, _ => .fail false
  | f + 1, acc, input =>
    match input with
    | ',' :: r =>
      let r1 := (skipWs r).1
      (match parseTy f r1 with
       | .ok t rest _ => tySepByRest f (acc ++ [t]) (skipWs rest).1
       | .fail _ => .fail true
       | .panicked m => .panicked m)
    | _ => .ok acc input true

/-- Array alternative of `ty_parser`:
`lex(token('[')).with((lex(int), lex(token('x')), ty_parser)).skip(token(']'))`. -/
def tyArrayAlt : Nat → List Char → POut Ty
  | 0, _ => .fail false
  | f + 1, input =>
    match input with
    | '[' :: r =>
      let r1 := (skipWs r).1
      setConsumed (match pIntP r1 with
        | .ok n rest _ =>
          (match (skipWs rest).1 with
           | 'x' :: r2 =>
             (match parseTy f (skipWs r2).1 with
              | .ok t rest2 _ =>
                (match rest2 with
                 | ']' :: r3 => .ok (Ty.array n t) r3 true
                 | _ => .fail true)
              | .fail _ => .fail true
              | .panicked m => .panicked m)
           | _ => .fail true)
        | .fail _ => .fail true
        | .panicked m => .panicked m)
    | _ => .fail false

end

/-! ### Constant grammar (`inline_value`, lines 713-888) -/

/-- The SI prefix table (lines 735-749): `a f p n u m k M G T P E` map to the
powers of ten `-18 .. +18`; any other character is not a prefix. -/
def siScale (c : Char) : Option Int :=
  if c = 'a' then some (-18)
  else if c = 'f' then some (-15)
  else if c = 'p' then some (-12)
  else if c = 'n' then some (-9)
  else if c = 'u' then some (-6)
  else if c = 'm' then some (-3)
  else if c = 'k' then some 3
  else if c = 'M' then some 6
  else if c = 'G' then some 9
  else if c = 'T' then some 12
  else if c = 'P' then some 15
  else if c = 'E' then some 18
  else none

/-- `optional(choice!(token('a').map(..), ..)).map(|v| v.unwrap_or(0))`:
consume one SI prefix character if present, else scale 0. -/
def siScaleStep : List Char → Int × List Char × Bool
  | [] => (0, [], false)
  | c :: r =>
    match siScale c with
    | some s => (s, r, true)
    | none => (0, c :: r, false)

/-- The `.map` closure of the time-constant parser (lines 760-791): build the
exact rational from the digit strings.  The numerator is the concatenation of
the integer and fraction digits; `zeros = scale − |fraction|` appends zeros
to the numerator when positive and to the denominator (starting from "1")
when negative; a leading '-' negates. -/
def constTimeRat (sign : Bool) (intDs : List Char) (frac : Option (List Char))
    (scale : Int) : ℚ :=
  let numer0 := intDs ++ frac.getD []
  let zeros : Int := scale - ((frac.map fun s => (s.length : Int)).getD 0)
  let numer := if 0 < zeros then numer0 ++ List.replicate zeros.toNat '0' else numer0
  let denom := if zeros < 0 then '1' :: List.replicate (-zeros).toNat '0' else ['1']
  let q : ℚ := (digitsVal numer : ℚ) / (digitsVal denom : ℚ)
  if sign then -q else q

/-- The delta-step suffix (lines 793-799):
`optional(try(whitespace.with(many1(digit)).map(parse.expect("invalid delta value")).skip(token('d'))))`.
The `expect` runs before the `'d'` is checked, so an out-of-range literal
panics; a missing suffix backtracks to the original input. -/
def pDelta (input : List Char) : POut (Option Nat) :=
  let r := (skipWs input).1
  match takeDigits r with
  | ([], _) => .ok none input false
  | (ds, rest) =>
    match rustParseUsize ds with
    | none => .panicked "invalid delta value"
    | some n =>
      match rest with
      | 'd' :: r2 => .ok (some n) r2 true
      | _ => .ok none input false

/-- The epsilon-step suffix (lines 800-806), same shape with `'e'`. -/
def pEps (input : List Char) : POut (Option Nat) :=
  let r := (skipWs input).1
  match takeDigits r with
  | ([], _) => .ok none input false
  | (ds, rest) =>
    match rustParseUsize ds with
    | none => .panicked "invalid epsilon value"
    | some n =>
      match rest with
      | 'e' :: r2 => .ok (some n) r2 true
      | _ => .ok none input false

/-- The time-constant parser `const_time` (lines 752-807): optional '-',
integer digits, optional '.'-fraction, SI prefix, terminating 's', then the
optional delta and epsilon suffixes (absent suffixes default to 0 via
`unwrap_or(0)`). -/
def pConstTime (input : List Char) : POut (ℚ × Nat × Nat) :=
  let (sign, r1) :=
    match input with
    | '-' :: r => (true, r)
    | _ => (false, input)
  match takeDigits r1 with
  | ([], _) => .fail sign
  | (intDs, r2) =>
    let fracRes : Option (Option (List Char) × List Char) :=
      match r2 with
      | '.' :: r =>
        (match takeDigits r with
         | ([], _) => none
         | (fds, r') => some (some fds, r'))
      | _ => some (none, r2)
    match fracRes with
    | none => .fail true
    | some (frac, r3) =>
      let (scale, r4, _) := siScaleStep r3
      match r4 with
      | 's' :: r5 =>
        (match pDelta r5 with
         | .panicked m => .panicked m
         | .fail c => .fail c
         | .ok d r6 _ =>
           (match pEps r6 with
            | .panicked m => .panicked m
            | .fail c => .fail c
            | .ok e r7 _ =>
              .ok (constTimeRat sign intDs frac scale, d.getD 0, e.getD 0) r7 true))
      | _ => .fail true

/-- The integer-constant parser `const_int` (lines 723-732): optional '-',
digits, arbitrary precision (no overflow). -/
def constIntP (input : List Char) : POut Int :=
  match input with
  | '-' :: r =>
    (match takeDigits r with
     | ([], _) => .fail true
     | (ds, rest) => .ok (-(digitsVal ds : Int)) rest true)
  | _ =>
    match takeDigits input with
    | ([], _) => .fail false
    | (ds, rest) => .ok (digitsVal ds : Int) rest true

/-- The `.map` closure of the const-int alternative (lines 874-885):
`local_ty.as_ref().or(ty).expect("cannot infer type of integer")` — the
explicit inline prefix type wins over the context type; with neither, the
parse panics.  `unwrap_int` then panics on a non-integer type. -/
def constIntAlt (localTy ctxTy : Option Ty) (v : Int) : Except String (ValueRef × Ty) :=
  match localTy.or ctxTy with
  | none => .error "cannot infer type of integer"
  | some t =>
    match t with
    | Ty.int w => .ok (ValueRef.konstInt w v, Ty.int w)
    | _ => .error "unwrap_int called on non-integer type"

/-- The optional array length prefix (lines 812-816):
`optional(r#try(many1(digit()).skip(token('x')).map(|d| d.parse().unwrap())))`.
The `unwrap` runs only after the `'x'` matched; without the `'x'` the digits
are rewound. -/
def arrayLenPfx (input : List Char) : POut (Option Nat) :=
  match takeDigits input with
  | ([], _) => .ok none input false
  | (ds, rest) =>
    match rest with
    | 'x' :: r2 =>
      (match rustParseUsize ds with
       | some n => .ok (some n) r2 true
       | none => .panicked overflowMsg)
    | _ => .ok none input false

/-- The `.map` closure of the array aggregate (lines 829-835): the array
type's length is the prefix when present, else the number of parsed
elements; no mismatch check. -/
def arrayAggMake (len : Option Nat) (elemTy : Ty) (vals : List ValueRef) :
    ValueRef × Ty :=
  let ty := Ty.array (len.getD vals.length) elemTy
  (ValueRef.arrayAgg ty vals, ty)

/-- `inner_name` (lines 70-76): `many1` of `[A-Za-z0-9_.]`. -/
def takeInner : List Char → List Char × List Char
  | [] => ([], [])
  | c :: cs =>
    if c.isAlphanum || c = '_' || c = '.' then
      let (d, r) := takeInner cs
      (c :: d, r)
    else ([], c :: cs)

/-- `name` (lines 78-88): '%' (local) or '@' (global) followed by an inner
name; yields `(is_global, text)`. -/
def pName (input : List Char) : POut (Bool × String) :=
  match input with
  | '%' :: r =>
    (match takeInner r with
     | ([], _) => .fail true
     | (ds, rest) => .ok (false, String.mk ds) rest true)
  | '@' :: r =>
    (match takeInner r with
     | ([], _) => .fail true
     | (ds, rest) => .ok (true, String.mk ds) rest true)
  | _ => .fail false

/-- `optional(parser(ty_parser).skip(parser(whitespace)))` as used by the
named-value and const-int alternatives of `inline_value`. -/
def optTyWs (f : Nat) (input : List Char) : POut (Option Ty) :=
  match parseTy f input with
  | .ok t rest _ => .ok (some t) (skipWs rest).1 true
  | .fail false => .ok none input false
  | .fail true => .fail true
  | .panicked m => .panicked m

mutual

/-- `inline_value` (lines 713-888): the five alternatives in `choice!` order,
each wrapped in `r#try` — (1) optional explicit type then a name, resolved
through the symbol table; (2) array aggregate; (3) struct aggregate; (4) time
constant; (5) optional explicit type then an integer constant.  The context
type (if any) is consulted only by the const-int alternative. -/
def inlineValue (nt : NT) : Nat → Option Ty → List Char → POut (ValueRef × Ty)
  | 0, _, _ => .fail false
  | f + 1, cty, input =>
    orElseP (attemptP (namedAlt nt f input)) fun _ =>
    orElseP (attemptP (arrayAlt nt f input)) fun _ =>
    orElseP (attemptP (structAlt nt f input)) fun _ =>
    orElseP (attemptP (mapP (pConstTime input) fun (t, d, e) =>
      (ValueRef.konstTime t d e, Ty.time))) fun _ =>
    attemptP (intAlt nt cty f input)

/-- Alternative (1): `(optional(ty_parser.skip(whitespace)), name)` mapped
through `ctx.lookup` — the explicit type is ignored, and an unknown name
panics inside `lookup`. -/
def namedAlt (nt : NT) : Nat → List Char → POut (ValueRef × Ty)
  | 0, _ => .fail false
  | f + 1, input =>
    match optTyWs f input with
    | .fail c => .fail c
    | .panicked m => .panicked m
    | .ok _ r1 c1 =>
      match pName r1 with
      | .fail c => .fail (c1 || c)
      | .panicked m => .panicked m
      | .ok (g, s) rest c2 =>
        match NT.lookup nt ⟨g, s⟩ with
        | .ok vt => .ok vt rest (c1 || c2)
        | .error m => .panicked m

/-- Alternative (2), the array aggregate (lines 810-835): `[`, optional
`<N>x` length prefix, element type, whitespace-prefixed elements separated by
lexed commas, `]`. -/
def arrayAlt (nt : NT) : Nat → List Char → POut (ValueRef × Ty)
  | 0, _ => .fail false
  | f + 1, input =>
    match input with
    | '[' :: r =>
      setConsumed (match arrayLenPfx r with
        | .panicked m => .panicked m
        | .fail c => .fail c
        | .ok len r1 _ =>
          match parseTy f r1 with
          | .ok ety r2 _ =>
            (match arrayElems nt ety f r2 with
             | .ok vals r3 _ =>
               (match r3 with
                | ']' :: r4 =>
                  let (v, ty) := arrayAggMake len ety vals
                  .ok (v, ty) r4 true
                | _ => .fail true)
             | .fail _ => .fail true
             | .panicked m => .panicked m)
          | .fail _ => .fail true
          | .panicked m => .panicked m)
    | _ => .fail false

/-- `sep_by(whitespace.with(inline_value_infer(elem_ty)), lex(','))` for
array elements. -/
def arrayElems (nt : NT) (ety : Ty) : Nat → List Char → POut (List ValueRef)
  | 0, _ => .fail false
  | f + 1, input =>
    let (r, wsc) := skipWs input
    match inlineValue nt f (some ety) r with
    | .fail false => if wsc then .fail true else .ok [] input false
    | .fail true => .fail true
    | .panicked m => .panicked m
    | .ok (v, _) rest _ => arrayElemsRest nt ety f [v] rest

/-- The `many(sep.with(p))` tail for array elements. -/
def arrayElemsRest (nt : NT) (ety : Ty) : Nat → List ValueRef → List Char →
    POut (List ValueRef)
  | 0, _, _ => .fail false
  | f + 1, acc, input =>
    match input with
    | ',' :: r =>
      let r1 := (skipWs r).1
      let r2 := (skipWs r1).1
      (match inlineValue nt f (some ety) r2 with
       | .ok (v, _) rest _ => arrayElemsRest nt ety f (acc ++ [v]) rest
       | .fail _ => .fail true
       | .panicked m => .panicked m)
    | _ => .ok acc input true

/-- Alternative (3), the struct aggregate (lines 838-856): `{`,
self-describing values separated by lexed commas, `}`; the struct type is the
tuple of the field types. -/
def structAlt (nt : NT) : Nat → List Char → POut (ValueRef × Ty)
  | 0, _ => .fail false
  | f + 1, input =>
    match input with
    | '{' :: r =>
      setConsumed (match structFields nt f r with
        | .ok fields rest _ =>
          (match rest with
           | '}' :: r2 =>
             let ty := Ty.strukt (fields.map Prod.snd)
             .ok (ValueRef.structAgg ty (fields.map Prod.fst), ty) r2 true
           | _ => .fail true)
        | .fail _ => .fail true
        | .panicked m => .panicked m)
    | _ => .fail false

/-- `sep_by(inline_value(standalone), lex(','))` for struct fields. -/
def structFields (nt : NT) : Nat → List Char → POut (List (ValueRef × Ty))
  | 0, _ => .fail false
  | f + 1, input =>
    match inlineValue nt f none input with
    | .fail false => .ok [] input false
    | .fail true => .fail true
    | .panicked m => .panicked m
    | .ok vt rest _ => structFieldsRest nt f [vt] rest

/-- The `many(sep.with(p))` tail for struct fields. -/
def structFieldsRest (nt : NT) : Nat → List (ValueRef × Ty) → List Char →
    POut (List (ValueRef × Ty))
  | 0, _, _ => .fail false
  | f + 1, acc, input =>
    match input with
    | ',' :: r =>
      let r1 := (skipWs r).1
      (match inlineValue nt f none r1 with
       | .ok vt rest _ => structFieldsRest nt f (acc ++ [vt]) rest
       | .fail _ => .fail true
       | .panicked m => .panicked m)
    | _ => .ok acc input true

/-- Alternative (5): `(optional(ty_parser.skip(whitespace)), const_int())`
mapped through the type-inference closure `constIntAlt`, whose `expect`
panics when no type is available. -/
def intAlt (_nt : NT) (cty : Option Ty) : Nat → List Char → POut (ValueRef × Ty)
  | 0, _ => .fail false
  | f + 1, input =>
    match optTyWs f input with
    | .fail c => .fail c
    | .panicked m => .panicked m
    | .ok lty r1 c1 =>
      match constIntP r1 with
      | .fail c => .fail (c1 || c)
      | .panicked m => .panicked m
      | .ok v r2 c2 =>
        match constIntAlt lty cty v with
        | .ok p => .ok p r2 (c1 || c2)
        | .error m => .panicked m

end

/-! ### Argument lists of `call` and `inst`

In both instructions each argument value is parsed with its positional formal
type; the element closure evaluates `arg_tys.next().expect("missing
argument")` before it looks at any input. -/

mutual

/-- `sep_by` over the positional element closure: invoking the element with
an exhausted formal-type iterator panics "missing argument" before any input
is consumed. -/
def argElems (nt : NT) : Nat → List Ty → List Char → POut (List ValueRef)
  | 0, _, _ => .fail false
  | f + 1, tys, input =>
    match tys with
    | [] => .panicked "missing argument"
    | t :: ts =>
      match inlineValue nt f (some t) input with
      | .fail false => .ok [] input false
      | .fail true => .fail true
      | .panicked m => .panicked m
      | .ok (v, _) rest _ => argElemsRest nt f ts [v] rest

/-- The `many(lex(',').with(element))` tail of the argument list. -/
def argElemsRest (nt : NT) : Nat → List Ty → List ValueRef → List Char →
    POut (List ValueRef)
  | 0, _, _, _ => .fail false
  | f + 1, tys, acc, input =>
    match input with
    | ',' :: r =>
      let r1 := (skipWs r).1
      (match tys with
       | [] => .panicked "missing argument"
       | t :: ts =>
         match inlineValue nt f (some t) r1 with
         | .ok (v, _) rest _ => argElemsRest nt f ts (acc ++ [v]) rest
         | .fail _ => .fail true
         | .panicked m => .panicked m)
    | _ => .ok acc input true

end

/-- The argument list of `call_inst` (lines 309-329):
`between(lex(token('(')), token(')'), sep_by(element, lex(',')))` with NO
special case for the empty list — the element closure (and with it the
iterator `expect`) runs even on `()`. -/
def callArgs (nt : NT) (tys : List Ty) (f : Nat) (input : List Char) :
    POut (List ValueRef) :=
  match input with
  | '(' :: r =>
    let r1 := (skipWs r).1
    (match argElems nt f tys r1 with
     | .ok vs rest _ =>
       (match rest with
        | ')' :: r2 => .ok vs r2 true
        | _ => .fail true)
     | .fail _ => .fail true
     | .panicked m => .panicked m)
  | _ => .fail false

/-- The input argument list of `instance_inst` (lines 346-370):
`r#try(lex(token('(')).and(lex(token(')'))).map(|_| Vec::new()))` is tried
FIRST, so an empty list never invokes the element closure; otherwise it
backtracks to `between(lex('('), lex(')'), sep_by(element, lex(',')))`. -/
def instArgs (nt : NT) (tys : List Ty) (f : Nat) (input : List Char) :
    POut (List ValueRef) :=
  match input with
  | '(' :: r =>
    let r1 := (skipWs r).1
    (match r1 with
     | ')' :: r2 => .ok [] (skipWs r2).1 true
     | _ =>
       match argElems nt f tys r1 with
       | .ok vs rest _ =>
         (match rest with
          | ')' :: r2 => .ok vs (skipWs r2).1 true
          | _ => .fail true)
       | .fail _ => .fail true
       | .panicked m => .panicked m)
  | _ => .fail false

/-! ### Bodies and naming (`insts`, `blocks`, `parse_body`, argument naming)

The instruction grammar itself is abstracted to its symbol-table effects: an
instruction is taken as already decomposed into its optional result name, the
block labels its operands reference through `inline_label` (`br`/`wait`
targets), and its result type.  This is exactly the interface `insts` and
`blocks` exercise on the `NameTable`. -/

/-- A source instruction, reduced to its symbol-table-relevant content. -/
structure SInst where
  name : Option String
  labels : List String
  resTy : Ty

/-- A parsed instruction: identity, stored (human-facing) name, resolved
block references. -/
structure PInst where
  id : Nat
  name : Option String
  labels : List Nat

/-- Resolve the operand labels of one instruction through
`inline_label`/`use_block` (lines 900-910), in order. -/
def useLabels (nt : NT) : List String → Except String (List Nat × NT)
  | [] => .ok ([], nt)
  | l :: ls => do
    let (r, nt1) ← NT.use_block nt l
    let (rs, nt2) ← useLabels nt1 ls
    .ok (r :: rs, nt2)

/-- The `named_inst` closure of `insts` (lines 198-207): the labels are
resolved while the instruction is parsed, then
`Inst::new(name.and_then(untemp_name), ..)` creates the instruction with its
temporary name stripped, and a named instruction is bound in the current
scope under its ORIGINAL name. -/
def parseInst (nt : NT) (si : SInst) : Except String (PInst × NT) := do
  let (refs, nt1) ← useLabels nt si.labels
  let inst : PInst := ⟨nt1.nextId, si.name.bind untempName, refs⟩
  let nt2 : NT := { nt1 with nextId := nt1.nextId + 1 }
  match si.name with
  | some n => do
    let nt3 ← NT.insert nt2 ⟨false, n⟩ (ValueRef.instRef inst.id) si.resTy
    .ok (inst, nt3)
  | none => .ok (inst, nt2)

/-- `insts` (lines 169-209): a sequence of instructions. -/
def parseInsts (nt : NT) : List SInst → Except String (List PInst × NT)
  | [] => .ok ([], nt)
  | si :: sis => do
    let (i, nt1) ← parseInst nt si
    let (is, nt2) ← parseInsts nt1 sis
    .ok (i :: is, nt2)

/-- One basic block of the `blocks` grammar (lines 155-167): the label and
terminator are read first, but `declare_block` runs in the `.map` AFTER the
block's instructions have been parsed. -/
def parseBlock (nt : NT) (label : String) (body : List SInst) :
    Except String ((Block × List PInst) × NT) := do
  let (is, nt1) ← parseInsts nt body
  let (b, nt2) ← NT.declare_block nt1 label
  .ok ((b, is), nt2)

/-- `parse_body` (lines 1044-1064) over `blocks`: parse each block in order
and hand the declared blocks with their instructions to the body.  There is
NO check for placeholders left in the blocks map when the unit closes. -/
def parseBody (nt : NT) : List (String × List SInst) →
    Except String (List (Block × List PInst) × NT)
  | [] => .ok ([], nt)
  | (label, body) :: rest => do
    let (b, nt1) ← parseBlock nt label body
    let (bs, nt2) ← parseBody nt1 rest
    .ok (b :: bs, nt2)

/-- A unit argument: identity, type, and the display name on the produced
entity. -/
structure Argument where
  id : Nat
  ty : Ty
  name : Option String

/-- The argument-naming loop of `function`/`process`/`entity` (lines
957-964, 984-993, 1015-1024): each named argument is bound in the child
scope under its full name, and `set_name` is called only when `untemp_name`
keeps the name (fresh arguments start unnamed, so a numeric name leaves the
argument unnamed). -/
def assignArgNames (nt : NT) : List (Option String) → List Argument →
    Except String (List Argument × NT)
  | some n :: ns, arg :: args => do
    let nt1 ← NT.insert nt ⟨false, n⟩ (ValueRef.argument arg.id) arg.ty
    let arg' : Argument :=
      match untempName n with
      | some m => { arg with name := some m }
      | none => arg
    let (args', nt2) ← assignArgNames nt1 ns args
    .ok (arg' :: args', nt2)
  | none :: ns, arg :: args => do
    let (args', nt2) ← assignArgNames nt ns args
    .ok (arg :: args', nt2)
  | _, args => .ok (args, nt)

/-! ### Sequences of symbol-table operations (for forward references) -/

/-- The symbol-table operations an instruction stream can perform between a
block's first use and its declaration. -/
inductive NTOp where
  | insertOp (k : NameKey) (v : ValueRef) (t : Ty) : NTOp
  | useBlockOp (n : String) : NTOp
  | declareBlockOp (n : String) : NTOp

/-- Whether the operation addresses the blocks map under the given label. -/
def NTOp.touches : NTOp → String → Bool
  | .insertOp _ _ _, _ => false
  | .useBlockOp n, l => n = l
  | .declareBlockOp n, l => n = l

/-- Run one operation. -/
def runOp (nt : NT) : NTOp → Except String NT
  | .insertOp k v t => NT.insert nt k v t
  | .useBlockOp n => (NT.use_block nt n).map Prod.snd
  | .declareBlockOp n => (NT.declare_block nt n).map Prod.snd

/-- Run a sequence of operations. -/
def runOps : NT → List NTOp → Except String NT
  | nt, [] => .ok nt
  | nt, op :: ops => do
    let nt1 ← runOp nt op
    runOps nt1 ops

/-! ### Helper lemmas -/

theorem takeDigits_all (s : List Char) (h : s.all Char.isDigit = true) :
    takeDigits s = (s, []) := by
  induction s with
  | nil => rfl
  | cons c cs ih =>
    simp only [List.all_cons, Bool.and_eq_true] at h
    simp [takeDigits, h.1, ih h.2]

theorem takeDigits_append (s : List Char) (c : Char) (r : List Char)
    (h : s.all Char.isDigit = true) (hc : c.isDigit = false) :
    takeDigits (s ++ c :: r) = (s, c :: r) := by
  induction s with
  | nil => simp [takeDigits, hc]
  | cons d ds ih =>
    simp only [List.all_cons, Bool.and_eq_true] at h
    simp [takeDigits, h.1, ih h.2]

theorem foldl_zeros (k a : Nat) :
    List.foldl (fun a c => 10 * a + (c.toNat - 48)) a (List.replicate k '0') = a * 10 ^ k := by
  induction k generalizing a with
  | zero => simp
  | succ k ih =>
    have h0 : ('0'.toNat - 48) = 0 := rfl
    simp only [List.replicate_succ, List.foldl_cons, h0, Nat.add_zero]
    rw [ih]
    ring

theorem digitsVal_append_zeros (s : List Char) (k : Nat) :
    digitsVal (s ++ List.replicate k '0') = digitsVal s * 10 ^ k := by
  unfold digitsVal
  rw [List.foldl_append]
  exact foldl_zeros k _

theorem digitsVal_one_zeros (k : Nat) :
    digitsVal ('1' :: List.replicate k '0') = 10 ^ k := by
  unfold digitsVal
  rw [List.foldl_cons]
  have h1 : (10 * 0 + ('1'.toNat - 48)) = 1 := rfl
  rw [h1]
  simpa using foldl_zeros k 1

theorem rustParseUsize_ok (ds : List Char) (h1 : ds ≠ [])
    (h2 : ds.all Char.isDigit = true) (h3 : digitsVal ds < 2 ^ 64) :
    rustParseUsize ds = some (digitsVal ds) := by
  unfold rustParseUsize
  rw [if_neg h1, if_pos h2, if_pos h3]

theorem rustParseUsize_overflow (ds : List Char)
    (h2 : ds.all Char.isDigit = true) (h3 : 2 ^ 64 ≤ digitsVal ds) :
    rustParseUsize ds = none := by
  unfold rustParseUsize
  have h1 : ds ≠ [] := by
    intro h
    subst h
    simp [digitsVal] at h3
  rw [if_neg h1, if_pos h2, if_neg (Nat.not_lt.mpr h3)]

theorem pIntP_ok (ds : List Char) (h1 : ds ≠ [])
    (h2 : ds.all Char.isDigit = true) (h3 : digitsVal ds < 2 ^ 64) :
    pIntP ds = .ok (digitsVal ds) [] true := by
  unfold pIntP
  rw [takeDigits_all ds h2]
  cases ds with
  | nil => exact absurd rfl h1
  | cons c cs => simp [rustParseUsize_ok _ h1 h2 h3]

theorem pIntP_overflow (ds : List Char) (h1 : ds ≠ [])
    (h2 : ds.all Char.isDigit = true) (h3 : 2 ^ 64 ≤ digitsVal ds) :
    pIntP ds = .panicked overflowMsg := by
  unfold pIntP
  rw [takeDigits_all ds h2]
  cases ds with
  | nil => exact absurd rfl h1
  | cons c cs => simp [rustParseUsize_overflow _ h2 h3]

theorem parseTy_int_ok (f : Nat) (ds : List Char) (h1 : ds ≠ [])
    (h2 : ds.all Char.isDigit = true) (h3 : digitsVal ds < 2 ^ 64) :
    parseTy (f + 1) ('i' :: ds) = .ok (Ty.int (digitsVal ds)) [] true := by
  have hp := pIntP_ok ds h1 h2 h3
  simp [parseTy, pstring, pstringGo, orElseP, mapP, setConsumed, hp]

theorem parseTy_int_overflow (f : Nat) (ds : List Char) (h1 : ds ≠ [])
    (h2 : ds.all Char.isDigit = true) (h3 : 2 ^ 64 ≤ digitsVal ds) :
    parseTy (f + 1) ('i' :: ds) = .panicked overflowMsg := by
  have hp := pIntP_overflow ds h1 h2 h3
  simp [parseTy, pstring, pstringGo, orElseP, mapP, setConsumed, hp]

theorem parseTy_enum_overflow (f : Nat) (ds : List Char) (h1 : ds ≠ [])
    (h2 : ds.all Char.isDigit = true) (h3 : 2 ^ 64 ≤ digitsVal ds) :
    parseTy (f + 1) ('n' :: ds) = .panicked overflowMsg := by
  have hp := pIntP_overflow ds h1 h2 h3
  simp [parseTy, pstring, pstringGo, orElseP, mapP, setConsumed, hp]

theorem digit_not_ws (c : Char) (h : c.isDigit = true) : c.isWhitespace = false := by
  simp only [Char.isDigit, Bool.and_eq_true, decide_eq_true_eq] at h
  simp only [Char.isWhitespace, Bool.or_eq_false_iff, decide_eq_false_iff_not]
  refine ⟨⟨⟨?_, ?_⟩, ?_⟩, ?_⟩ <;> rintro rfl <;> exact absurd h (by decide)

theorem skipWs_digit (c : Char) (r : List Char) (h : c.isDigit = true) :
    skipWs (c :: r) = (c :: r, false) := by
  simp [skipWs, digit_not_ws c h]

theorem constTimeRat_div (numer0 : List Char) (z : Int) :
    ((digitsVal (if 0 < z then numer0 ++ List.replicate z.toNat '0' else numer0) : ℚ) /
      (digitsVal (if z < 0 then '1' :: List.replicate (-z).toNat '0' else ['1']) : ℚ)) =
      (digitsVal numer0 : ℚ) * (10 : ℚ) ^ z := by
  rcases lt_trichotomy z 0 with hneg | hzero | hpos
  · rw [if_neg (by omega), if_pos hneg, digitsVal_one_zeros]
    obtain ⟨K, hK⟩ : ∃ K : Nat, z = -(K : Int) := ⟨(-z).toNat, by omega⟩
    subst hK
    rw [zpow_neg, zpow_natCast, div_eq_mul_inv]
    norm_num
  · subst hzero
    simp [digitsVal]
  · rw [if_pos hpos, if_neg (by omega), digitsVal_append_zeros]
    obtain ⟨K, hK⟩ : ∃ K : Nat, z = (K : Int) := ⟨z.toNat, by omega⟩
    subst hK
    rw [zpow_natCast]
    have hd : digitsVal ['1'] = 1 := rfl
    rw [hd, Int.toNat_natCast]
    push_cast
    ring

theorem constTimeRat_eq (sign : Bool) (intDs : List Char) (frac : Option (List Char))
    (scale : Int) :
    constTimeRat sign intDs frac scale =
      (if sign then (-1 : ℚ) else 1) * (digitsVal (intDs ++ frac.getD []) : ℚ) *
        (10 : ℚ) ^ (scale - ((frac.getD []).length : Int)) := by
  have hfrac : ((frac.map fun s => (s.length : Int)).getD 0) = ((frac.getD []).length : Int) := by
    cases frac <;> simp
  unfold constTimeRat
  rw [hfrac]
  dsimp only
  rw [constTimeRat_div (intDs ++ frac.getD []) (scale - ((frac.getD []).length : Int))]
  cases sign <;> simp

/-! ### Claims -/

/-- C3: in `call` and `inst`, an empty argument list `()` should be a
distinct first alternative so that the positional formal-type iterator is
never queried.  `instance_inst` has that alternative, but `call_inst` does
not: calling a zero-parameter callee with `()` runs the element closure,
whose `arg_tys.next().expect("missing argument")` panics. -/
theorem c3_call_empty_args_panics :
    callArgs NT.empty [] 12 ['(', ')'] = .panicked "missing argument" ∧
    instArgs NT.empty [] 12 ['(', ')'] = .ok [] [] true :=
  ⟨rfl, rfl⟩

/-- C5: a time constant is an exact rational: the numerator is the
concatenation of the integer and fractional digit strings (negated on a
leading '-'), scaled by ten to the `scale − |fraction|`, where the SI
prefixes `a f p n u m k M G T P E` map to the powers of ten
`-18 .. -3, 3 .. 18` (0 when absent); delta/epsilon suffixes default to 0.
The concrete anchors run the full time-constant parser. -/
theorem c5_time_constant_exact :
    (∀ (sign : Bool) (intDs : List Char) (frac : Option (List Char)) (scale : Int),
      constTimeRat sign intDs frac scale =
        (if sign then (-1 : ℚ) else 1) * (digitsVal (intDs ++ frac.getD []) : ℚ) *
          (10 : ℚ) ^ (scale - ((frac.getD []).length : Int))) ∧
    (siScale 'a' = some (-18) ∧ siScale 'f' = some (-15) ∧ siScale 'p' = some (-12) ∧
     siScale 'n' = some (-9) ∧ siScale 'u' = some (-6) ∧ siScale 'm' = some (-3) ∧
     siScale 'k' = some 3 ∧ siScale 'M' = some 6 ∧ siScale 'G' = some 9 ∧
     siScale 'T' = some 12 ∧ siScale 'P' = some 15 ∧ siScale 'E' = some 18 ∧
     siScale 's' = none ∧ siScale '0' = none) ∧
    pConstTime ['1', 'n', 's'] = .ok ((1 : ℚ) / 1000000000, 0, 0) [] true ∧
    pConstTime ['-', '2', 'n', 's'] = .ok (-((2 : ℚ) / 1000000000), 0, 0) [] true ∧
    pConstTime ['3', '.', '4', '5', 'n', 's'] = .ok ((345 : ℚ) / 100000000000, 0, 0) [] true ∧
    pConstTime ['1', 's'] = .ok ((1 : ℚ) / 1, 0, 0) [] true ∧
    pConstTime ['0', 's', ' ', '4', '2', 'd', ' ', '9', '0', '0', '1', 'e'] =
      .ok ((0 : ℚ) / 1, 42, 9001) [] true := by
  refine ⟨constTimeRat_eq, ?_, ?_, ?_, ?_, ?_, ?_⟩
  · exact ⟨rfl, rfl, rfl, rfl, rfl, rfl, rfl, rfl, rfl, rfl, rfl, rfl, rfl, rfl⟩
  · rfl
  · rfl
  · rfl
  · rfl
  · rfl

/-- C7: in an array aggregate literal the type's length is the element count
when the `<N>x` prefix is absent, and the prefix value N (even when it
differs from the element count, with no error) when present.  The anchors
parse `[2xi32 5]` (prefix 2, one element) and `[i32 42, 9001]` (no prefix,
two elements). -/
theorem c7_array_aggregate_length :
    (∀ (ety : Ty) (vals : List ValueRef),
      (arrayAggMake none ety vals).2 = Ty.array vals.length ety) ∧
    (∀ (n : Nat) (ety : Ty) (vals : List ValueRef),
      (arrayAggMake (some n) ety vals).2 = Ty.array n ety) ∧
    inlineValue NT.empty 12 none ['[', '2', 'x', 'i', '3', '2', ' ', '5', ']'] =
      .ok (ValueRef.arrayAgg (Ty.array 2 (Ty.int 32)) [ValueRef.konstInt 32 5],
        Ty.array 2 (Ty.int 32)) [] true ∧
    inlineValue NT.empty 12 none
        ['[', 'i', '3', '2', ' ', '4', '2', ',', ' ', '9', '0', '0', '1', ']'] =
      .ok (ValueRef.arrayAgg (Ty.array 2 (Ty.int 32))
        [ValueRef.konstInt 32 42, ValueRef.konstInt 32 9001],
        Ty.array 2 (Ty.int 32)) [] true :=
  ⟨fun _ _ => rfl, fun _ _ _ => rfl, rfl, rfl⟩

/-- C8 (amended): `i<N>` parses to an integer type of width N for EVERY
unsigned decimal N that fits in `usize`, with no lower bound — `i0` included
(see the counterexample). -/
theorem c8_int_width_unbounded (f : Nat) (ds : List Char) (h1 : ds ≠ [])
    (h2 : ds.all Char.isDigit = true) (h3 : digitsVal ds < 2 ^ 64) :
    parseTy (f + 1) ('i' :: ds) = .ok (Ty.int (digitsVal ds)) [] true :=
  parseTy_int_ok f ds h1 h2 h3

/-- C8 counterexample: the claim says `i0` is not accepted; the type grammar
accepts it and yields the integer type of width 0. -/
theorem c8_counterexample_i0 : parseTy 9 ['i', '0'] = .ok (Ty.int 0) [] true := rfl

/-- C8 witness: instantiate the amended statement at `i7`. -/
theorem c8_witness : parseTy 1 ['i', '7'] = .ok (Ty.int 7) [] true := by
  have h := c8_int_width_unbounded 0 ['7'] (by decide) (by decide) (by decide)
  exact h

/-- C9: an explicit inline type prefix on an integer constant wins over the
context-inherited type (`local_ty.as_ref().or(ty)`); the context is
consulted only when no prefix is written.  The anchor parses the element
`i8 7` under an `i32` context: the constant takes width 8. -/
theorem c9_explicit_prefix_wins :
    (∀ (w : Nat) (cty : Option Ty) (v : Int),
      constIntAlt (some (Ty.int w)) cty v = .ok (ValueRef.konstInt w v, Ty.int w)) ∧
    (∀ (w : Nat) (v : Int),
      constIntAlt none (some (Ty.int w)) v = .ok (ValueRef.konstInt w v, Ty.int w)) ∧
    inlineValue NT.empty 12 (some (Ty.int 32)) ['i', '8', ' ', '7'] =
      .ok (ValueRef.konstInt 8 7, Ty.int 8) [] true :=
  ⟨fun _ _ _ => rfl, fun _ _ => rfl, rfl⟩

/-- C10: every bare decimal converted to a machine integer (type widths and
enum cardinalities, array lengths, insert/extract indices, delta/epsilon
steps) goes through `parse::<usize>().unwrap()`/`expect(..)`: an in-range
literal converts exactly, an out-of-range literal panics instead of
producing a parse diagnostic. -/
theorem c10_unchecked_usize_conversions :
    (∀ ds : List Char, ds ≠ [] → ds.all Char.isDigit = true →
      digitsVal ds < 2 ^ 64 → rustParseUsize ds = some (digitsVal ds)) ∧
    (∀ ds : List Char, ds.all Char.isDigit = true →
      2 ^ 64 ≤ digitsVal ds → rustParseUsize ds = none) ∧
    (∀ (f : Nat) (ds : List Char), ds ≠ [] → ds.all Char.isDigit = true →
      digitsVal ds < 2 ^ 64 →
      parseTy (f + 1) ('i' :: ds) = .ok (Ty.int (digitsVal ds)) [] true) ∧
    (∀ (f : Nat) (ds : List Char), ds ≠ [] → ds.all Char.isDigit = true →
      2 ^ 64 ≤ digitsVal ds → parseTy (f + 1) ('i' :: ds) = .panicked overflowMsg) ∧
    (∀ (f : Nat) (ds : List Char), ds ≠ [] → ds.all Char.isDigit = true →
      2 ^ 64 ≤ digitsVal ds → parseTy (f + 1) ('n' :: ds) = .panicked overflowMsg) ∧
    (∀ (ds r : List Char), ds ≠ [] → ds.all Char.isDigit = true →
      2 ^ 64 ≤ digitsVal ds → arrayLenPfx (ds ++ 'x' :: r) = .panicked overflowMsg) ∧
    (∀ ds : List Char, ds ≠ [] → ds.all Char.isDigit = true →
      2 ^ 64 ≤ digitsVal ds → insertIndex ds = .panicked overflowMsg) ∧
    (∀ (ds r : List Char), ds ≠ [] → ds.all Char.isDigit = true →
      2 ^ 64 ≤ digitsVal ds → pDelta (ds ++ 'd' :: r) = .panicked "invalid delta value") := by
  refine ⟨rustParseUsize_ok, rustParseUsize_overflow, parseTy_int_ok, parseTy_int_overflow,
    parseTy_enum_overflow, ?_, pIntP_overflow, ?_⟩
  · intro ds r h1 h2 h3
    unfold arrayLenPfx
    rw [takeDigits_append ds 'x' r h2 (by decide)]
    cases ds with
    | nil => exact absurd rfl h1
    | cons c cs => simp [rustParseUsize_overflow _ h2 h3]
  · intro ds r h1 h2 h3
    cases ds with
    | nil => exact absurd rfl h1
    | cons c cs =>
      have hdig : c.isDigit = true := by
        simp only [List.all_cons, Bool.and_eq_true] at h2
        exact h2.1
      have happ : (c :: cs) ++ 'd' :: r = c :: (cs ++ 'd' :: r) := rfl
      unfold pDelta
      rw [happ, skipWs_digit c (cs ++ 'd' :: r) hdig, ← happ]
      dsimp only
      rw [takeDigits_append (c :: cs) 'd' r h2 (by decide)]
      simp [rustParseUsize_overflow _ h2 h3]

/-- C10 witness: the 20-digit literal `18446744073709551616 = 2^64` overflows
`usize` at each conversion site. -/
theorem c10_witness :
    parseTy 1 ('i' :: ['1', '8', '4', '4', '6', '7', '4', '4', '0', '7', '3', '7',
      '0', '9', '5', '5', '1', '6', '1', '6']) = .panicked overflowMsg := by
  have h := c10_unchecked_usize_conversions.2.2.2.1 0
    ['1', '8', '4', '4', '6', '7', '4', '4', '0', '7', '3', '7', '0', '9', '5', '5', '1', '6', '1', '6']
    (by decide) (by decide) (by decide)
  exact h

theorem alLookup_alRemove [DecidableEq α] (l : List (α × β)) (k k' : α) :
    alLookup (alRemove l k) k' = if k' = k then none else alLookup l k' := by
  induction l with
  | nil => simp [alRemove, alLookup]
  | cons p t ih =>
    obtain ⟨a, b⟩ := p
    by_cases hak : a = k <;> by_cases hk : k' = a <;>
      simp_all [alRemove, alLookup]

theorem alLookup_alInsert [DecidableEq α] (l : List (α × β)) (k : α) (v : β) (k' : α) :
    alLookup (alInsert l k v) k' = if k' = k then some v else alLookup l k' := by
  unfold alInsert
  simp only [alLookup]
  by_cases hk : k' = k
  · simp [hk]
  · simp [hk, alLookup_alRemove]

theorem use_block_fresh (nt : NT) (L : String)
    (h1 : alLookup nt.cur.values ⟨false, L⟩ = none)
    (h2 : alLookup nt.cur.blocks L = none) :
    NT.use_block nt L = .ok (nt.nextId,
      { cur := { values := alInsert nt.cur.values ⟨false, L⟩ (ValueRef.block nt.nextId, Ty.void),
                 blocks := alInsert nt.cur.blocks L ⟨nt.nextId, untempName L⟩ },
        parents := nt.parents,
        nextId := nt.nextId + 1 }) := by
  unfold NT.use_block
  rw [h1]
  simp [h1, h2]

theorem runOp_preserves (L : String) (nt nt' : NT) (op : NTOp)
    (ht : op.touches L = false) (hok : runOp nt op = .ok nt') :
    alLookup nt'.cur.blocks L = alLookup nt.cur.blocks L := by
  cases op with
  | insertOp k v t =>
    simp only [runOp, NT.insert] at hok
    split at hok
    · exact absurd hok (by simp)
    · simp only [Except.ok.injEq] at hok
      subst hok
      rfl
  | useBlockOp n =>
    have hn : ¬(L = n) := by
      intro h
      subst h
      simp [NTOp.touches] at ht
    simp only [runOp] at hok
    cases hb : NT.use_block nt n with
    | error e =>
      rw [hb] at hok
      simp [Except.map] at hok
    | ok p =>
      rw [hb] at hok
      simp only [Except.map, Except.ok.injEq] at hok
      subst hok
      unfold NT.use_block at hb
      split at hb
      · simp only [Except.ok.injEq] at hb
        subst hb
        rfl
      · exact absurd hb (by simp)
      · split at hb
        · exact absurd hb (by simp)
        · split at hb
          · exact absurd hb (by simp)
          · simp only [Except.ok.injEq] at hb
            subst hb
            simp [alLookup_alInsert, hn]
  | declareBlockOp n =>
    have hn : ¬(L = n) := by
      intro h
      subst h
      simp [NTOp.touches] at ht
    simp only [runOp] at hok
    cases hb : NT.declare_block nt n with
    | error e =>
      rw [hb] at hok
      simp [Except.map] at hok
    | ok p =>
      rw [hb] at hok
      simp only [Except.map, Except.ok.injEq] at hok
      subst hok
      unfold NT.declare_block at hb
      split at hb
      · simp only [Except.ok.injEq] at hb
        subst hb
        simp [alLookup_alRemove, hn]
      · split at hb
        · exact absurd hb (by simp)
        · simp only [Except.ok.injEq] at hb
          subst hb
          rfl

theorem runOps_preserves (L : String) (ops : List NTOp) :
    ∀ nt nt' : NT, (ops.all fun op => !(NTOp.touches op L)) = true →
      runOps nt ops = .ok nt' →
      alLookup nt'.cur.blocks L = alLookup nt.cur.blocks L := by
  induction ops with
  | nil =>
    intro nt nt' _ h
    simp only [runOps, Except.ok.injEq] at h
    subst h
    rfl
  | cons op ops ih =>
    intro nt nt' hall hrun
    simp only [List.all_cons, Bool.and_eq_true] at hall
    unfold runOps at hrun
    cases hop : runOp nt op with
    | error e =>
      rw [hop] at hrun
      simp [Bind.bind, Except.bind] at hrun
    | ok nt1 =>
      rw [hop] at hrun
      simp only [Bind.bind, Except.bind] at hrun
      have h1 := runOp_preserves L nt nt1 op (by simpa using hall.1) hop
      have h2 := ih nt1 nt' hall.2 hrun
      rw [h2, h1]

/-- C4: a block label referenced before its declaration resolves to the SAME
block as the declaration: after a fresh `use_block L` returning reference r,
any sequence of symbol-table operations not touching L preserves the
placeholder, and the eventual `declare_block L` adopts exactly the block with
identity r. -/
theorem c4_forward_reference_same_block (nt : NT) (L : String) (r : Nat)
    (nt1 nt2 : NT) (ops : List NTOp)
    (h1 : alLookup nt.cur.values ⟨false, L⟩ = none)
    (h2 : alLookup nt.cur.blocks L = none)
    (hu : NT.use_block nt L = .ok (r, nt1))
    (hall : (ops.all fun op => !(NTOp.touches op L)) = true)
    (hrun : runOps nt1 ops = .ok nt2) :
    declaredId nt2 L = some r := by
  rw [use_block_fresh nt L h1 h2] at hu
  simp only [Except.ok.injEq, Prod.mk.injEq] at hu
  obtain ⟨hr, hnt1⟩ := hu
  have hblk : alLookup nt1.cur.blocks L = some ⟨r, untempName L⟩ := by
    rw [← hnt1, ← hr]
    simp [alLookup_alInsert]
  have hpres := runOps_preserves L ops nt1 nt2 hall hrun
  rw [hblk] at hpres
  unfold declaredId NT.declare_block
  rw [hpres]

/-- C4 witness: in an empty unit scope, use block `%bb` (reference 0), then
bind a value, use and declare another block, and finally declare `%bb`: the
declaration adopts block 0. -/
theorem c4_witness :
    declaredId
      ⟨⟨[(⟨false, "other"⟩, (ValueRef.block 1, Ty.void)),
         (⟨false, "x"⟩, (ValueRef.konstInt 1 0, Ty.int 1)),
         (⟨false, "bb"⟩, (ValueRef.block 0, Ty.void))],
        [("bb", ⟨0, some "bb"⟩)]⟩, [], 2⟩ "bb" = some 0 :=
  c4_forward_reference_same_block NT.empty "bb" 0
    ⟨⟨[(⟨false, "bb"⟩, (ValueRef.block 0, Ty.void))], [("bb", ⟨0, some "bb"⟩)]⟩, [], 1⟩
    ⟨⟨[(⟨false, "other"⟩, (ValueRef.block 1, Ty.void)),
       (⟨false, "x"⟩, (ValueRef.konstInt 1 0, Ty.int 1)),
       (⟨false, "bb"⟩, (ValueRef.block 0, Ty.void))],
      [("bb", ⟨0, some "bb"⟩)]⟩, [], 2⟩
    [NTOp.insertOp ⟨false, "x"⟩ (ValueRef.konstInt 1 0) (Ty.int 1),
     NTOp.useBlockOp "other", NTOp.declareBlockOp "other"]
    rfl rfl rfl rfl rfl

/-- C1 (amended): lexical/syntactic errors travel through the returned
diagnostic, but the semantic-during-parse errors — name redefinition,
reference to an undeclared name, a `%name` resolving to a non-block where a
block is required, and inability to infer an integer constant's type — abort
the process with a panic instead of being returned by `parse_str`. -/
theorem c1_semantic_errors_panic :
    (∀ (nt : NT) (k : NameKey) (v : ValueRef) (t : Ty) (p : ValueRef × Ty),
      alLookup nt.cur.values k = some p → NT.insert nt k v t = .error "name redefined") ∧
    (∀ (nt : NT) (k : NameKey),
      scopesFind (nt.cur :: nt.parents) k = none →
      NT.lookup nt k =
        .error ("name " ++ (if k.g then "@" else "%") ++ k.n ++ " has not been declared")) ∧
    (∀ (nt : NT) (n : String) (v : ValueRef) (t : Ty),
      alLookup nt.cur.values ⟨false, n⟩ = some (v, t) → v.isBlock = false →
      NT.use_block nt n = .error ("%" ++ n ++ " does not refer to a block")) ∧
    (∀ v : Int, constIntAlt none none v = .error "cannot infer type of integer") := by
  refine ⟨?_, ?_, ?_, fun v => rfl⟩
  · intro nt k v t p h
    unfold NT.insert
    rw [h]
    rfl
  · intro nt k h
    unfold NT.lookup
    rw [h]
  · intro nt n v t h hb
    unfold NT.use_block
    rw [h]
    cases v <;> simp_all [ValueRef.isBlock]

/-- C1 counterexample: a standalone integer constant with no inferable type
does not produce a returned diagnostic — the inline-value parser aborts with
the "cannot infer type of integer" panic. -/
theorem c1_counterexample :
    inlineValue NT.empty 8 none ['4', '2'] = .panicked "cannot infer type of integer" := rfl

/-- C1 witness: each of the four semantic error paths at a concrete state. -/
theorem c1_witness :
    NT.insert ⟨⟨[(⟨false, "x"⟩, (ValueRef.konstInt 1 1, Ty.int 1))], []⟩, [], 1⟩
      ⟨false, "x"⟩ (ValueRef.konstInt 1 0) (Ty.int 1) = .error "name redefined" ∧
    NT.lookup NT.empty ⟨false, "y"⟩ = .error "name %y has not been declared" ∧
    NT.use_block ⟨⟨[(⟨false, "x"⟩, (ValueRef.konstInt 1 1, Ty.int 1))], []⟩, [], 1⟩ "x" =
      .error "%x does not refer to a block" ∧
    constIntAlt none none 5 = .error "cannot infer type of integer" :=
  ⟨c1_semantic_errors_panic.1 _ ⟨false, "x"⟩ _ _ _ rfl,
   c1_semantic_errors_panic.2.1 NT.empty ⟨false, "y"⟩ rfl,
   c1_semantic_errors_panic.2.2.1 _ "x" (ValueRef.konstInt 1 1) (Ty.int 1) rfl rfl,
   c1_semantic_errors_panic.2.2.2 5⟩

/-- C2 (amended): a block label referenced but never declared before the
unit's closing brace does NOT make parsing fail: `parse_body` performs no
placeholder check, the unit is returned with the instruction pointing at the
placeholder block (identity 0 here, absent from the declared blocks), and
the placeholder stays in the discarded scope's blocks map. -/
theorem c2_unresolved_placeholder_no_error (l : String) (hl : l ≠ "entry") :
    parseBody NT.empty [("entry", [⟨none, [l], Ty.void⟩])] =
      .ok ([(⟨2, some "entry"⟩, [⟨1, none, [0]⟩])],
        ⟨⟨[(⟨false, "entry"⟩, (ValueRef.block 2, Ty.void)),
           (⟨false, l⟩, (ValueRef.block 0, Ty.void))],
          [(l, ⟨0, untempName l⟩)]⟩, [], 3⟩) := by
  have hne : ("entry" : String) ≠ l := Ne.symm hl
  have hnk : (⟨false, "entry"⟩ : NameKey) ≠ ⟨false, l⟩ := by
    intro h
    exact hne (congrArg NameKey.n h)
  have h1 : NT.use_block NT.empty l =
      .ok (0, ⟨⟨[(⟨false, l⟩, (ValueRef.block 0, Ty.void))],
        [(l, ⟨0, untempName l⟩)]⟩, [], 1⟩) :=
    use_block_fresh NT.empty l rfl rfl
  have h5 : untempName "entry" = some "entry" := rfl
  have hnk2 : ({ g := false, n := l } : NameKey) ≠ ⟨false, "entry"⟩ := by
    intro h
    exact hne (congrArg NameKey.n h).symm
  simp only [parseBody, parseBlock, parseInsts, parseInst, useLabels, bind, Except.bind, h1,
    NT.declare_block, alLookup, alInsert, alRemove, hne, hnk, h5, Option.bind]
  simp [hl, hnk2]

/-- C2 counterexample: the claim says parsing fails; on the concrete unit
`entry: br-to %next` with `%next` never declared, `parse_body` succeeds and
returns the body, with the placeholder block 0 left in the blocks map and
referenced by the instruction while only block 2 was declared. -/
theorem c2_counterexample :
    parseBody NT.empty [("entry", [⟨none, ["next"], Ty.void⟩])] =
      .ok ([(⟨2, some "entry"⟩, [⟨1, none, [0]⟩])],
        ⟨⟨[(⟨false, "entry"⟩, (ValueRef.block 2, Ty.void)),
           (⟨false, "next"⟩, (ValueRef.block 0, Ty.void))],
          [("next", ⟨0, some "next"⟩)]⟩, [], 3⟩) := rfl

/-- C2 witness: instantiate the amended statement at the label "later". -/
theorem c2_witness :
    parseBody NT.empty [("entry", [⟨none, ["later"], Ty.void⟩])] =
      .ok ([(⟨2, some "entry"⟩, [⟨1, none, [0]⟩])],
        ⟨⟨[(⟨false, "entry"⟩, (ValueRef.block 2, Ty.void)),
           (⟨false, "later"⟩, (ValueRef.block 0, Ty.void))],
          [("later", ⟨0, some "later"⟩)]⟩, [], 3⟩) := by
  have h := c2_unresolved_placeholder_no_error "later" (by decide)
  exact h

theorem declare_block_fresh (nt : NT) (n : String)
    (h1 : alLookup nt.cur.values ⟨false, n⟩ = none)
    (h2 : alLookup nt.cur.blocks n = none) :
    NT.declare_block nt n = .ok (⟨nt.nextId, untempName n⟩,
      ⟨⟨alInsert nt.cur.values ⟨false, n⟩ (ValueRef.block nt.nextId, Ty.void),
        nt.cur.blocks⟩, nt.parents, nt.nextId + 1⟩) := by
  unfold NT.declare_block
  rw [h2]
  simp [h1]

/-- C6: a local name consisting only of decimal digits is stripped from the
stored entity — the instruction, argument, or block carries no human-facing
name — while the name is still inserted into the symbol table and resolvable
by later references; non-numeric names are preserved verbatim.  (The stored
name is `untempName n` throughout: `none` exactly for `^[0-9]+$`, `some n`
otherwise.) -/
theorem c6_numeric_temp_names :
    (∀ s : String, s.data ≠ [] → s.data.all Char.isDigit = true → untempName s = none) ∧
    (∀ s : String, s.data.all Char.isDigit = false → untempName s = some s) ∧
    (∀ (nt : NT) (n : String) (ty : Ty),
      alLookup nt.cur.values ⟨false, n⟩ = none →
      parseInst nt ⟨some n, [], ty⟩ =
        .ok (⟨nt.nextId, untempName n, []⟩,
          ⟨⟨alInsert nt.cur.values ⟨false, n⟩ (ValueRef.instRef nt.nextId, ty),
            nt.cur.blocks⟩, nt.parents, nt.nextId + 1⟩)) ∧
    (∀ (nt : NT) (n : String) (ty : Ty),
      NT.lookup ⟨⟨alInsert nt.cur.values ⟨false, n⟩ (ValueRef.instRef nt.nextId, ty),
        nt.cur.blocks⟩, nt.parents, nt.nextId + 1⟩ ⟨false, n⟩ =
        .ok (ValueRef.instRef nt.nextId, ty)) ∧
    (∀ (nt : NT) (i : Nat) (t : Ty) (n : String),
      alLookup nt.cur.values ⟨false, n⟩ = none →
      assignArgNames nt [some n] [⟨i, t, none⟩] =
        .ok ([⟨i, t, untempName n⟩],
          ⟨⟨alInsert nt.cur.values ⟨false, n⟩ (ValueRef.argument i, t),
            nt.cur.blocks⟩, nt.parents, nt.nextId⟩)) ∧
    (∀ (nt : NT) (n : String),
      alLookup nt.cur.values ⟨false, n⟩ = none → alLookup nt.cur.blocks n = none →
      NT.declare_block nt n = .ok (⟨nt.nextId, untempName n⟩,
        ⟨⟨alInsert nt.cur.values ⟨false, n⟩ (ValueRef.block nt.nextId, Ty.void),
          nt.cur.blocks⟩, nt.parents, nt.nextId + 1⟩)) := by
  refine ⟨?_, ?_, ?_, ?_, ?_, declare_block_fresh⟩
  · intro s h1 h2
    simp [untempName, h2]
  · intro s h
    simp [untempName, h]
  · intro nt n ty h
    simp [parseInst, useLabels, bind, Except.bind, NT.insert, h]
  · intro nt n ty
    simp [NT.lookup, scopesFind, alLookup_alInsert]
  · intro nt i t n h
    cases hu : untempName n with
    | none => simp [assignArgNames, bind, Except.bind, NT.insert, h, hu]
    | some m =>
      have hm : m = n := by
        unfold untempName at hu
        split at hu
        · cases hu
        · cases hu
          rfl
      subst hm
      simp [assignArgNames, bind, Except.bind, NT.insert, h, hu]

/-- C6 witness: the numeric name "0" is stripped but bound and resolvable;
the name "foo" is preserved. -/
theorem c6_witness :
    untempName "0" = none ∧
    untempName "foo" = some "foo" ∧
    parseInst NT.empty ⟨some "0", [], Ty.void⟩ =
      .ok (⟨0, none, []⟩,
        ⟨⟨[(⟨false, "0"⟩, (ValueRef.instRef 0, Ty.void))], []⟩, [], 1⟩) ∧
    NT.lookup ⟨⟨[(⟨false, "0"⟩, (ValueRef.instRef 0, Ty.void))], []⟩, [], 1⟩ ⟨false, "0"⟩ =
      .ok (ValueRef.instRef 0, Ty.void) ∧
    assignArgNames NT.empty [some "0"] [⟨7, Ty.int 8, none⟩] =
      .ok ([⟨7, Ty.int 8, none⟩],
        ⟨⟨[(⟨false, "0"⟩, (ValueRef.argument 7, Ty.int 8))], []⟩, [], 0⟩) := by
  refine ⟨c6_numeric_temp_names.1 "0" (by decide) (by decide),
    c6_numeric_temp_names.2.1 "foo" (by decide), ?_, ?_, ?_⟩
  · have h := c6_numeric_temp_names.2.2.1 NT.empty "0" Ty.void rfl
    exact h
  · have h := c6_numeric_temp_names.2.2.2.1 NT.empty "0" Ty.void
    exact h
  · have h := c6_numeric_temp_names.2.2.2.2.1 NT.empty 7 (Ty.int 8) "0" rfl
    exact h
